import Mathlib

/-!
# Verification of the `yunnet/chillon` FTP server core

Shallow embedding of the Go sources:

* `server/filedriver.go` — the filesystem-backed `FileDriver`
  (`realPath`, `Stat`, `ListDir`, `GetFile`, `PutFile`, `MakeDir`, …);
* the server lifecycle file (`ftpserver.go`) — `serverOptsWithDefaults`,
  `NewServer`, `ListenAndServe`, `Serve`, `Shutdown`.

Physical paths are modelled as lists of path components (a Go path string
split on `/` and lexically cleaned); the filesystem is a finite association
list from component paths to objects.  Machine integers of the Go code
(`int64` byte counts, offsets) are modelled as `Nat`: none of the verified
operations can overflow or go negative on the inputs the claims quantify
over.
-/

set_option autoImplicit false

namespace Chillon

/-! ## Paths: `strings.Split(path, "/")` and `filepath.Join`/`Clean`

`FileDriver.realPath` is

```go
func (f *FileDriver) realPath(path string) string {
    paths := strings.Split(path, "/")
    return filepath.Join(append([]string{f.RootPath}, paths...)...)
}
```

Go's `filepath.Join` drops empty elements, joins the rest with `/` and
applies `filepath.Clean`.  Since the split components contain no `/`,
the joined string's component stream is exactly
`splitSlash rootPath ++ splitSlash path` with empty components ignored,
and the result is rooted iff `rootPath` begins with `/` (when `rootPath`
is empty the first components are slash-free, so the join is relative).
We model the cleaned result as its list of components; the empty list
stands for Go's `"."` (relative) or `"/"` (rooted). -/

/-- `strings.Split(s, "/")` on the underlying character list. -/
def splitSlashAux : List Char → List Char → List String
  | [], cur => [String.mk cur.reverse]
  | c :: rest, cur =>
    if c = '/' then String.mk cur.reverse :: splitSlashAux rest []
    else splitSlashAux rest (c :: cur)

/-- Go `strings.Split(s, "/")`. -/
def splitSlash (s : String) : List String :=
  splitSlashAux s.data []

/-- Whether a Go path string is rooted (begins with `/`), i.e.
`filepath.IsAbs` on Unix. -/
def isRooted (s : String) : Bool :=
  match s.data with
  | [] => false
  | c :: _ => c = '/'

/-- One step of Go's `filepath.Clean` over the component stream: empty and
`"."` components are dropped; `".."` pops the last output component unless
the output is empty or already ends in `".."` (for a rooted path a `".."`
at the root is dropped); any other component is appended. -/
def cleanPush (rooted : Bool) (acc : List String) (c : String) : List String :=
  if c = "" ∨ c = "." then acc
  else if c = ".." then
    match acc.getLast? with
    | none => if rooted then [] else [".."]
    | some l => if l = ".." then acc ++ [".."] else acc.dropLast
  else acc ++ [c]

/-- Go `filepath.Clean` on a component stream. -/
def goCleanComps (rooted : Bool) (cs : List String) : List String :=
  cs.foldl (cleanPush rooted) []

/-- `FileDriver.realPath`, as the component list of the resulting physical
path: `filepath.Join(RootPath, strings.Split(path, "/")...)`. -/
def realPathComps (rootPath path : String) : List String :=
  goCleanComps (isRooted rootPath) (splitSlash rootPath ++ splitSlash path)

/-- Rendering of a cleaned component list back to a Go path string: the
empty list is `"."` for a relative path and `"/"` for a rooted one
(as `filepath.Clean` produces). -/
def joinSlash : List String → String
  | [] => ""
  | [x] => x
  | x :: xs => x ++ "/" ++ joinSlash xs

/-- The Go string `filepath.Clean` would print for a cleaned component
list. -/
def goPathString (rooted : Bool) (cs : List String) : String :=
  match cs with
  | [] => if rooted then "/" else "."
  | _ => if rooted then "/" ++ joinSlash cs else joinSlash cs

/-! ## The filesystem state

A finite association list from physical component paths to objects.  This
is the fragment of the OS filesystem the `FileDriver` operations consult:
`os.Lstat` is `fsLookup`, `os.Remove` is `fsRemove`, `os.Create` followed
by `io.Copy` installs a file object with the copied bytes. -/

/-- An object in the filesystem: a regular file with its byte content, or
a directory. -/
inductive FsObj where
  | file (content : List Nat)
  | dir
  deriving DecidableEq, Repr

/-- The filesystem: a finite map from physical component paths to
objects. -/
abbrev Fs := List (List String × FsObj)

/-- `os.Lstat`: the object at a physical path, if any. -/
def fsLookup (fs : Fs) (p : List String) : Option FsObj :=
  match fs with
  | [] => none
  | (k, v) :: rest => if k = p then some v else fsLookup rest p

/-- `os.Remove`: drop the entry at a physical path. -/
def fsRemove (fs : Fs) (p : List String) : Fs :=
  match fs with
  | [] => []
  | (k, v) :: rest =>
    if k = p then fsRemove rest p else (k, v) :: fsRemove rest p

/-- Install an object at a physical path (the effect of `os.Create` +
`io.Copy`, `os.OpenFile` + `io.Copy`, or `os.Mkdir`). -/
def fsSet (fs : Fs) (p : List String) (v : FsObj) : Fs :=
  (p, v) :: fsRemove fs p

/-- The old content of a file at a physical path (`[]` when absent; never
consulted for a directory in context). -/
def oldBytes (fs : Fs) (p : List String) : List Nat :=
  match fsLookup fs p with
  | some (.file c) => c
  | _ => []

/-- The permission oracle `Perm` consumed by the driver:
`GetMode`, `GetOwner`, `GetGroup`, each fallible. -/
structure Perm where
  getMode : String → Except String Nat
  getOwner : String → Except String String
  getGroup : String → Except String String

/-- Whether an `Except` value is a success. -/
def exOk {ε α : Type} : Except ε α → Bool
  | .ok _ => true
  | .error _ => false

/-- The `FileInfoEx` the driver builds: embedded `os.FileInfo` data
(name, size, directory bit) plus the oracle's mode (the 9 permission
bits; the `os.ModeDir` bit is the separate `isDir` field), owner and
group. -/
structure FileInfoEx where
  name : String
  mode : Nat
  isDir : Bool
  owner : String
  group : String
  size : Nat
  deriving DecidableEq, Repr

/-! ## `FileDriver.Stat`

```go
func (f *FileDriver) Stat(path string) (FileInfo, error) {
    basepath := f.realPath(path)
    rPath, err := filepath.Abs(basepath)       // fails only on getwd failure
    if err != nil { return nil, err }
    r, err := os.Lstat(rPath)
    if err != nil { return nil, err }
    // (json debug print of r — no observable effect on the result)
    mode, err := f.Perm.GetMode(path)
    if err != nil { return nil, err }
    if r.IsDir() { mode |= os.ModeDir }
    owner, err := f.Perm.GetOwner(path)
    if err != nil { return nil, err }
    group, err := f.Perm.GetGroup(path)
    if err != nil { return nil, err }
    return &FileInfoEx{r, mode, owner, group}, nil
}
```

`filepath.Abs` is modelled as the identity on the already-joined path (it
can fail only when the working directory cannot be read, which is outside
the modelled state). -/

/-- Size reported by `os.FileInfo.Size()` for an object (directory sizes
are irrelevant to every claim; they are modelled as 0). -/
def objSize : FsObj → Nat
  | .file c => c.length
  | .dir => 0

/-- Whether the object is a directory. -/
def objIsDir : FsObj → Bool
  | .file _ => false
  | .dir => true

/-- Base name of a cleaned physical path: the last component, or `"."`
(`"/"` when rooted) for the empty path, as `filepath.Base` yields on the
string rendering. -/
def baseNameOf (rooted : Bool) (cs : List String) : String :=
  match cs.getLast? with
  | some n => n
  | none => if rooted then "/" else "."

/-- `FileDriver.Stat`. -/
def stat (rootPath : String) (fs : Fs) (perm : Perm) (path : String) :
    Except String FileInfoEx :=
  let rPath := realPathComps rootPath path
  match fsLookup fs rPath with
  | none => .error "lstat: no such file or directory"
  | some obj =>
    match perm.getMode path with
    | .error e => .error e
    | .ok mode =>
      match perm.getOwner path with
      | .error e => .error e
      | .ok owner =>
        match perm.getGroup path with
        | .error e => .error e
        | .ok group =>
          .ok ⟨baseNameOf (isRooted rootPath) rPath, mode, objIsDir obj,
               owner, group, objSize obj⟩

/-! ## `FileDriver.GetFile`

```go
func (f *FileDriver) GetFile(path string, offset int64) (int64, io.ReadCloser, error) {
    rPath := f.realPath(path)
    r, err := os.Open(rPath)
    if err != nil { return 0, nil, err }
    info, err := r.Stat()
    if err != nil { return 0, nil, err }
    r.Seek(offset, io.SeekStart)
    return info.Size(), r, nil
}
```

The returned reader's remaining byte stream is the file content from the
seek position on.  (`os.Open` on a directory returns a handle whose reads
fail; that case is outside every claim and collapsed to an error here.) -/

/-- `FileDriver.GetFile`: full size and the remaining bytes of the
returned reader. -/
def getFile (rootPath : String) (fs : Fs) (path : String) (offset : Nat) :
    Except String (Nat × List Nat) :=
  match fsLookup fs (realPathComps rootPath path) with
  | some (.file c) => .ok (c.length, c.drop offset)
  | some .dir => .error "read: is a directory"
  | none => .error "open: no such file or directory"

/-! ## `FileDriver.PutFile`

```go
func (f *FileDriver) PutFile(destPath string, data io.Reader, appendData bool) (int64, error) {
    rPath := f.realPath(destPath)
    var isExist bool
    r, err := os.Lstat(rPath)
    if err == nil {
        isExist = true
        if r.IsDir() { return 0, errors.New("A dir has the same name") }
    } else if os.IsNotExist(err) { isExist = false }
    else { return 0, ... }
    if appendData && !isExist { appendData = false }
    if !appendData {
        if isExist { os.Remove(rPath) }
        r := os.Create(rPath); bytes := io.Copy(r, data); return bytes
    }
    of := os.OpenFile(rPath, os.O_APPEND|os.O_RDWR, 0660)
    of.Seek(0, io.SeekEnd)
    bytes := io.Copy(of, data)
    return bytes
}
```
-/

/-- `FileDriver.PutFile`: byte count written and the new filesystem. -/
def putFile (rootPath : String) (fs : Fs) (destPath : String)
    (data : List Nat) (appendData : Bool) : Except String (Nat × Fs) :=
  let rPath := realPathComps rootPath destPath
  match fsLookup fs rPath with
  | some .dir => .error "A dir has the same name"
  | some (.file old) =>
    if appendData then
      -- OpenFile(O_APPEND|O_RDWR), Seek(0, SeekEnd), Copy
      .ok (data.length, fsSet fs rPath (.file (old ++ data)))
    else
      -- Remove, Create, Copy
      .ok (data.length, fsSet (fsRemove fs rPath) rPath (.file data))
  | none =>
    -- isExist = false, so appendData is forced to false: Create, Copy
    .ok (data.length, fsSet fs rPath (.file data))

/-! ## `FileDriver.MakeDir`

```go
func (f *FileDriver) MakeDir(path string) error {
    rPath := f.realPath(path)
    return os.MkdirAll(rPath, os.ModePerm)
}
```

`os.MkdirAll(p)`: if `p` exists as a directory, succeed without touching
anything; if it exists as a non-directory, fail with `ENOTDIR`; otherwise
recursively make the parent (`filepath.Dir(p)`, i.e. the path without its
last component) and then create `p` itself.  The recursion bottoms out at
the root (`"."` or `"/"`), which always exists.  The recursion strips the
last component, so it is phrased on the reversed component list. -/

/-- `os.MkdirAll` on the reversed component path. -/
def mkdirAllRev (fs : Fs) : List String → Except String Fs
  | [] =>
    -- the root ("." or "/"): it exists, as a directory unless a file
    -- shadows it
    match fsLookup fs ([] : List String) with
    | some (.file _) => .error "mkdir: not a directory"
    | _ => .ok fs
  | c :: rest =>
    match fsLookup fs (c :: rest).reverse with
    | some .dir => .ok fs
    | some (.file _) => .error "mkdir: not a directory"
    | none =>
      match mkdirAllRev fs rest with
      | .error e => .error e
      | .ok fs' => .ok (fsSet fs' (c :: rest).reverse .dir)

/-- `FileDriver.MakeDir`. -/
def makeDir (rootPath : String) (fs : Fs) (path : String) :
    Except String Fs :=
  mkdirAllRev fs (realPathComps rootPath path).reverse

/-- No regular file sits at this physical path (it is absent or a
directory) — the condition under which `os.MkdirAll` cannot fail with
`ENOTDIR` at that path. -/
def notFileAt (fs : Fs) (p : List String) : Bool :=
  match fsLookup fs p with
  | some (.file _) => false
  | _ => true

/-- Well-formedness of the modelled filesystem fragment, true of any state
reachable on a real filesystem: every entry's proper, nonempty path
prefixes are directories. -/
def FsWf (fs : Fs) : Prop :=
  ∀ kv ∈ fs, ∀ r ∈ kv.1.inits, r ≠ kv.1 → r ≠ [] →
    fsLookup fs r = some FsObj.dir

/-! ## `FileDriver.ListDir` and `filepath.Walk`

```go
func (c *FileDriver) ListDir(path string, callback func(FileInfo) error) error {
    basepath := c.realPath(path)
    return filepath.Walk(basepath, func(f string, info os.FileInfo, err error) error {
        if err != nil { return err }
        rPath, _ := filepath.Rel(basepath, f)
        if rPath == info.Name() {
            mode, err := c.Perm.GetMode(rPath)
            if err != nil { return err }
            if info.IsDir() { mode |= os.ModeDir }
            owner, err := c.Perm.GetOwner(rPath)
            if err != nil { return err }
            group, err := c.Perm.GetGroup(rPath)
            if err != nil { return err }
            err = callback(&FileInfoEx\x7binfo, mode, owner, group\x7d)
            if err != nil { return err }
            if info.IsDir() { return filepath.SkipDir }
        }
        return nil
    })
}
```

The walked subtree is modelled as a tree of entries; node positions are
their component paths relative to `basepath` (so `filepath.Rel` is the
`/`-join of the components, `"."` at the root, and `info.Name()` is the
last component, or the base name of `basepath` at the root).  `lstat`
and `readDirNames` never fail over this model. -/

/-- A node of the directory tree rooted at the resolved physical
`basepath`: a regular file with its size, or a directory with its
children in the (sorted) order `readDirNames` yields them. -/
inductive Entry where
  | file (size : Nat)
  | dir (children : List (String × Entry))

/-- `os.FileInfo.IsDir()`. -/
def entryIsDir : Entry → Bool
  | .file _ => false
  | .dir _ => true

/-- `os.FileInfo.Size()` (directory sizes are irrelevant to every claim
and modelled as 0). -/
def entrySize : Entry → Nat
  | .file sz => sz
  | .dir _ => 0

/-- `filepath.Rel(basepath, f)` for the node at components `rel` below
the base: `"."` for the base itself. -/
def relStr : List String → String
  | [] => "."
  | cs => joinSlash cs

/-- `info.Name()` for the visited node: the base name of `basepath` for
the walk root, the last component otherwise. -/
def entryName (rel : List String) (baseName : String) : String :=
  match rel.getLast? with
  | none => baseName
  | some n => n

/-- A walk function's verdict: nil, `filepath.SkipDir`, or an error. -/
inductive WfRes where
  | ok
  | skipDir
  | fail (msg : String)
  deriving DecidableEq, Repr

/-- The walk function `ListDir` passes to `filepath.Walk` (see the Go
body above), together with the callback invocation it performs, if any.
The callback `cb` reports `none` for nil and `some e` for an error. -/
def listWalkFn (perm : Perm) (cb : FileInfoEx → Option String)
    (rel : List String) (baseName : String) (isDir : Bool) (size : Nat) :
    Option FileInfoEx × WfRes :=
  let rPath := relStr rel
  let name := entryName rel baseName
  if rPath = name then
    match perm.getMode rPath with
    | .error e => (none, .fail e)
    | .ok mode =>
      match perm.getOwner rPath with
      | .error e => (none, .fail e)
      | .ok owner =>
        match perm.getGroup rPath with
        | .error e => (none, .fail e)
        | .ok group =>
          let fi : FileInfoEx := ⟨name, mode, isDir, owner, group, size⟩
          match cb fi with
          | some e => (some fi, .fail e)
          | none => (some fi, if isDir then .skipDir else .ok)
  else (none, .ok)

mutual

/-- Go's `filepath.Walk` recursion (`walk(path, info, walkFn)`)
instantiated with `ListDir`'s walk function, collecting the callback
invocations in order: visit the node; a non-directory returns the walk
function's verdict; for a directory, `SkipDir` or an error from the walk
function is returned before any child, and otherwise the children are
walked. -/
def walkE (perm : Perm) (cb : FileInfoEx → Option String)
    (baseName : String) (rel : List String) :
    Entry → List FileInfoEx × WfRes
  | .file sz =>
    (match listWalkFn perm cb rel baseName false sz with
     | (c, r) => (c.toList, r))
  | .dir children =>
    (match listWalkFn perm cb rel baseName true 0 with
     | (c, .ok) =>
       (match walkC perm cb baseName rel children with
        | (cs, r) => (c.toList ++ cs, r))
     | (c, r) => (c.toList, r))

/-- The children loop of Go's `walk`: an error from a child aborts;
`SkipDir` from a directory child is swallowed and the loop continues,
while `SkipDir` from a non-directory child propagates (Go's
`if !fileInfo.IsDir() || err != SkipDir` check). -/
def walkC (perm : Perm) (cb : FileInfoEx → Option String)
    (baseName : String) (rel : List String) :
    List (String × Entry) → List FileInfoEx × WfRes
  | [] => ([], .ok)
  | (n, ch) :: rest =>
    (match walkE perm cb baseName (rel ++ [n]) ch with
     | (cs, .ok) =>
       (match walkC perm cb baseName rel rest with
        | (cs', r') => (cs ++ cs', r'))
     | (cs, .skipDir) =>
       if entryIsDir ch then
         (match walkC perm cb baseName rel rest with
          | (cs', r') => (cs ++ cs', r'))
       else (cs, .skipDir)
     | (cs, .fail e) => (cs, .fail e))

end

/-- `FileDriver.ListDir`: `filepath.Walk(basepath, walkFn)` where
`baseName` is the base name of the resolved physical path and `root` the
tree at it; `Walk` converts a final `SkipDir` into nil.  Returns the
callback invocations in order, and `some e` for an error result. -/
def listDir (perm : Perm) (cb : FileInfoEx → Option String)
    (baseName : String) (root : Entry) :
    List FileInfoEx × Option String :=
  match walkE perm cb baseName [] root with
  | (cs, .fail e) => (cs, some e)
  | (cs, _) => (cs, none)

/-! ## Server lifecycle (`ftpserver.go`)

`ServerOpts`, `serverOptsWithDefaults`, `ListenAndServe`'s listener and
FEAT-list selection, the `Serve` accept loop and `Shutdown`. -/

/-- One iteration's outcome of `s.listener.Accept()` in the `Serve` loop:
`conn` — a connection was accepted (`factoryOk`: whether
`Factory.NewDriver` succeeds); `acceptErr` — `Accept` failed, recording
whether the server's context had been cancelled by then (`Shutdown` ran)
and whether the error is a `net.Error` with `Temporary() == true`. -/
inductive AcceptEv where
  | conn (factoryOk : Bool)
  | acceptErr (cancelled : Bool) (temporary : Bool) (msg : String)
  deriving DecidableEq, Repr

/-- How `Serve` returns: `closed` is `ErrServerClosed`, `fatal` carries
the accept error itself. -/
inductive ServeRes where
  | closed
  | fatal (msg : String)
  deriving DecidableEq, Repr

/-- The `Serve` accept loop over a script of accept outcomes (`none`
means the script ran out while the loop was still accepting):

```go
for {
    tcpConn, err := s.listener.Accept()
    if err != nil {
        select {
        case <-s.ctx.Done():
            return ErrServerClosed
        default:
        }
        s.logger.Printf(sessionID, "listening error: %v", err)
        if ne, ok := err.(net.Error); ok && ne.Temporary() {
            continue
        }
        return err
    }
    driver, err := s.Factory.NewDriver()
    if err != nil {
        tcpConn.Close()
    } else {
        ftpConn := s.newConn(tcpConn, driver)
        go ftpConn.Serve()
    }
}
```
-/
def serveRun : List AcceptEv → Option ServeRes
  | [] => none
  | .conn _ :: rest => serveRun rest
  | .acceptErr cancelled temp msg :: rest =>
    if cancelled then some .closed
    else if temp then serveRun rest
    else some (.fatal msg)

/-- The server fields `Shutdown` reads or writes, plus the
already-accepted connections it must not touch. -/
structure ServerState where
  hasCancel : Bool          -- s.cancel != nil (Serve has run)
  cancelled : Bool
  hasListener : Bool        -- s.listener != nil
  listenerClosed : Bool
  closeErr : Option String  -- the error s.listener.Close() would return
  conns : List Nat
  deriving DecidableEq, Repr

/-- `Server.Shutdown`:

```go
func (s *Server) Shutdown() error {
    if s.cancel != nil {
        s.cancel()
    }
    if s.listener != nil {
        return s.listener.Close()
    }
    // s wasnt even started
    return nil
}
```
-/
def shutdown (s : ServerState) : ServerState × Except String Unit :=
  let s1 := if s.hasCancel then { s with cancelled := true } else s
  if s1.hasListener then
    ({ s1 with listenerClosed := true },
     match s1.closeErr with
     | some e => .error e
     | none => .ok ())
  else (s1, .ok ())

/-- The control listener `ListenAndServe` installs. -/
inductive ListenerKind where
  | plainTCP
  | tlsWrapped
  deriving DecidableEq, Repr

/-- The feature lines appended when TLS is configured:
`curFeats += " AUTH TLS\n PBSZ\n PROT\n"`. -/
def tlsFeatCmds : String := " AUTH TLS\n PBSZ\n PROT\n"

/-- What `ListenAndServe` sets up before entering `Serve`. -/
structure LasSetup where
  kind : ListenerKind
  curFeats : String
  deriving DecidableEq, Repr

/-- The listener selection and FEAT-list computation of `ListenAndServe`
(`featCmds` is the base feature string from cmd.go, `certOk` whether
`tls.LoadX509KeyPair` succeeds):

```go
if s.ServerOpts.TLS {
    s.tlsConfig, err = simpleTLSConfig(s.CertFile, s.KeyFile)
    if err != nil { return err }
    curFeats += " AUTH TLS\n PBSZ\n PROT\n"
    if s.ServerOpts.ExplicitFTPS {
        listener, err = net.Listen("tcp", s.listenTo)
    } else {
        listener, err = tls.Listen("tcp", s.listenTo, s.tlsConfig)
    }
} else {
    listener, err = net.Listen("tcp", s.listenTo)
}
```
-/
def listenAndServeSetup (tls explicitFTPS certOk : Bool)
    (featCmds : String) : Except String LasSetup :=
  if tls then
    if certOk then
      .ok { kind := if explicitFTPS then .plainTCP else .tlsWrapped,
            curFeats := featCmds ++ tlsFeatCmds }
    else .error "tls: load key pair failed"
  else .ok { kind := .plainTCP, curFeats := featCmds }

/-- A `Logger` value: the default `StdLogger` or a user-provided one. -/
inductive LoggerI where
  | stdLogger
  | custom (id : Nat)
  deriving DecidableEq, Repr

/-- `ServerOpts` (the `Factory`, `Auth` and `Logger` interface values are
abstracted to identifiers; `none` is Go's `nil`; `port` is a Go `int`). -/
structure ServerOpts where
  factory : Option Nat
  auth : Option Nat
  name : String
  hostname : String
  publicIp : String
  passivePorts : String
  port : Int
  tls : Bool
  certFile : String
  keyFile : String
  explicitFTPS : Bool
  welcomeMessage : String
  logger : Option LoggerI
  deriving DecidableEq, Repr

/-- The zero value of `ServerOpts` (Go's `&ServerOpts\x7b\x7d`). -/
def zeroServerOpts : ServerOpts where
  factory := none
  auth := none
  name := ""
  hostname := ""
  publicIp := ""
  passivePorts := ""
  port := 0
  tls := false
  certFile := ""
  keyFile := ""
  explicitFTPS := false
  welcomeMessage := ""
  logger := none

/-- Modelled from the spec: the default welcome text
`defaultWelcomeMessage` is defined in conn.go, which is not under the
given sources; its exact value is immaterial to every claim. -/
def defaultWelcomeMessage : String := "Welcome to the Go FTP Server"

/-- `serverOptsWithDefaults`: copies the options, substituting defaults
for zero-valued fields (`nil` input behaves as the zero options value;
`newOpts.Logger = &StdLogger\x7b\x7d` first, overwritten when
`opts.Logger != nil`; `newOpts.Auth` is assigned only when
`opts.Auth != nil`, which equals copying since its zero value is nil). -/
def serverOptsWithDefaults (optsIn : Option ServerOpts) : ServerOpts :=
  let opts : ServerOpts := match optsIn with
    | none => zeroServerOpts
    | some o => o
  { hostname := if opts.hostname = "" then "::" else opts.hostname,
    port := if opts.port = 0 then (3000 : Int) else opts.port,
    factory := opts.factory,
    name := if opts.name = "" then "Go FTP Server" else opts.name,
    welcomeMessage :=
      if opts.welcomeMessage = "" then defaultWelcomeMessage
      else opts.welcomeMessage,
    auth := opts.auth,
    logger := some (match opts.logger with
      | none => LoggerI.stdLogger
      | some l => l),
    tls := opts.tls,
    keyFile := opts.keyFile,
    certFile := opts.certFile,
    explicitFTPS := opts.explicitFTPS,
    publicIp := opts.publicIp,
    passivePorts := opts.passivePorts }

/-- A component stream free of `".."` only ever extends the cleaner's
output: the accumulator is a prefix of the fold's result. -/
theorem goClean_foldl_extends (rooted : Bool) :
    ∀ (cs : List String), (".." ∉ cs) → ∀ (acc : List String),
      ∃ t, cs.foldl (cleanPush rooted) acc = acc ++ t := by
  intro cs
  induction cs with
  | nil => intro _ acc; exact ⟨[], by simp⟩
  | cons c cs ih =>
    intro h acc
    have hc : c ≠ ".." := fun hc => h (by simp [hc])
    have hcs : ".." ∉ cs := fun hm => h (by simp [hm])
    have hstep : ∃ s, cleanPush rooted acc c = acc ++ s := by
      by_cases h0 : c = "" ∨ c = "."
      · exact ⟨[], by simp [cleanPush, h0]⟩
      · exact ⟨[c], by simp [cleanPush, h0, hc]⟩
    obtain ⟨s, hs⟩ := hstep
    obtain ⟨t, ht⟩ := ih hcs (acc ++ s)
    exact ⟨s ++ t, by simp [List.foldl_cons, hs, ht]⟩

end Chillon

/-- C4 (counterexample): with `RootPath = "upload"`, the virtual path
`"/../x"` resolves to the physical path `"x"` — `filepath.Clean` lets the
`".."` component pop the root component — so the result is not contained
under `"upload"`: `realPath` does escape the configured root. -/
theorem realPath_escape_counterexample :
    Chillon.realPathComps "upload" "/../x" = ["x"] ∧
      (∀ t, ["x"] ≠ "upload" :: t) ∧
      Chillon.goPathString false (Chillon.realPathComps "upload" "/../x") = "x" := by
  refine ⟨by decide, ?_, by decide⟩
  intro t h
  exact absurd (List.head_eq_of_cons_eq h) (by decide)

/-- C4 (amended): for every root and every virtual path `p` none of whose
slash-separated components is `".."`, `realPath p` stays lexically contained
under the cleaned root: the cleaned root's components are a prefix of the
result.  (The unamended claim fails for paths with `".."` components, see
the counterexample.) -/
theorem realPath_contained (rootPath p : String)
    (h : ".." ∉ Chillon.splitSlash p) :
    ∃ t, Chillon.realPathComps rootPath p =
      Chillon.goCleanComps (Chillon.isRooted rootPath)
        (Chillon.splitSlash rootPath) ++ t := by
  unfold Chillon.realPathComps Chillon.goCleanComps
  rw [List.foldl_append]
  exact Chillon.goClean_foldl_extends _ _ h _

/-- C4 witness: concretely, `realPath "/a/b"` with root `"upload"` is
contained under `"upload"`. -/
theorem realPath_contained_witness :
    ∃ t, Chillon.realPathComps "upload" "/a/b" =
      Chillon.goCleanComps (Chillon.isRooted "upload")
        (Chillon.splitSlash "upload") ++ t :=
  realPath_contained "upload" "/a/b" (by decide)

namespace Chillon

/-- Looking up the path just written by `fsSet` yields the new object. -/
theorem fsLookup_fsSet_self (fs : Fs) (p : List String) (v : FsObj) :
    fsLookup (fsSet fs p v) p = some v := by
  simp [fsSet, fsLookup]

/-- `fsRemove` leaves other paths alone. -/
theorem fsLookup_fsRemove_ne (fs : Fs) (p q : List String) (h : q ≠ p) :
    fsLookup (fsRemove fs p) q = fsLookup fs q := by
  have hpq : ¬ p = q := fun hq => h hq.symm
  induction fs with
  | nil => rfl
  | cons kv rest ih =>
    obtain ⟨k, v⟩ := kv
    by_cases hk : k = p
    · simp [fsRemove, fsLookup, hk, ih, hpq]
    · by_cases hq : k = q <;> simp [fsRemove, fsLookup, hk, hq, ih, h]

/-- `fsSet` leaves other paths alone. -/
theorem fsLookup_fsSet_ne (fs : Fs) (p q : List String) (v : FsObj)
    (h : q ≠ p) :
    fsLookup (fsSet fs p v) q = fsLookup fs q := by
  have hpq : ¬ p = q := fun hq => h hq.symm
  simp [fsSet, fsLookup, hpq, fsLookup_fsRemove_ne fs p q h]

end Chillon

/-- C2: when the destination is not an existing directory, `PutFile`
succeeds, returns exactly `data.length` written bytes, and leaves the
destination containing: `data` alone when `appendData = false` (prior
content discarded) or when the file did not exist; the old content
followed by `data` when `appendData = true` and the file existed. -/
theorem putFile_spec (rootPath destPath : String) (fs : Chillon.Fs)
    (data : List Nat) (appendData : Bool)
    (h : Chillon.fsLookup fs (Chillon.realPathComps rootPath destPath) ≠
      some Chillon.FsObj.dir) :
    ∃ fs', Chillon.putFile rootPath fs destPath data appendData =
        .ok (data.length, fs') ∧
      Chillon.fsLookup fs' (Chillon.realPathComps rootPath destPath) =
        some (Chillon.FsObj.file
          ((if appendData then
              Chillon.oldBytes fs (Chillon.realPathComps rootPath destPath)
            else []) ++ data)) ∧
      (∀ q, q ≠ Chillon.realPathComps rootPath destPath →
        Chillon.fsLookup fs' q = Chillon.fsLookup fs q) := by
  rcases ho : Chillon.fsLookup fs (Chillon.realPathComps rootPath destPath)
    with _ | obj
  · refine ⟨Chillon.fsSet fs (Chillon.realPathComps rootPath destPath)
      (Chillon.FsObj.file data), ?_, ?_, ?_⟩
    · simp [Chillon.putFile, ho]
    · simp [Chillon.fsLookup_fsSet_self, Chillon.oldBytes, ho]
    · intro q hq
      exact Chillon.fsLookup_fsSet_ne fs _ q _ hq
  · rcases obj with c | _
    · rcases appendData with _ | _
      · refine ⟨Chillon.fsSet
          (Chillon.fsRemove fs (Chillon.realPathComps rootPath destPath))
          (Chillon.realPathComps rootPath destPath)
          (Chillon.FsObj.file data), ?_, ?_, ?_⟩
        · simp [Chillon.putFile, ho]
        · simp [Chillon.fsLookup_fsSet_self]
        · intro q hq
          rw [Chillon.fsLookup_fsSet_ne _ _ q _ hq,
            Chillon.fsLookup_fsRemove_ne fs _ q hq]
      · refine ⟨Chillon.fsSet fs (Chillon.realPathComps rootPath destPath)
          (Chillon.FsObj.file (c ++ data)), ?_, ?_, ?_⟩
        · simp [Chillon.putFile, ho]
        · simp [Chillon.fsLookup_fsSet_self, Chillon.oldBytes, ho]
        · intro q hq
          exact Chillon.fsLookup_fsSet_ne fs _ q _ hq
    · exact absurd ho h

/-- C2 witness: storing then appending on a concrete filesystem.  With
root `"upload"`, an empty filesystem, `STOR /f` of bytes `[1, 2]` then
`APPE /f` of bytes `[3]` leaves `/f` containing `[1, 2, 3]`, each call
reporting the length of its own input. -/
theorem putFile_spec_witness :
    ∃ fs', Chillon.putFile "upload" [(["upload", "f"],
        Chillon.FsObj.file [1, 2])] "/f" [3] true =
        .ok (([3] : List Nat).length, fs') ∧
      Chillon.fsLookup fs' (Chillon.realPathComps "upload" "/f") =
        some (Chillon.FsObj.file
          ((if true then Chillon.oldBytes
              [(["upload", "f"], Chillon.FsObj.file [1, 2])]
              (Chillon.realPathComps "upload" "/f")
            else []) ++ [3])) ∧
      (∀ q, q ≠ Chillon.realPathComps "upload" "/f" →
        Chillon.fsLookup fs' q =
          Chillon.fsLookup [(["upload", "f"], Chillon.FsObj.file [1, 2])] q) :=
  putFile_spec "upload" "/f"
    [(["upload", "f"], Chillon.FsObj.file [1, 2])] [3] true (by decide)

/-- C3: for an existing regular file with content `c` and any offset
`n ≤ c.length`, `GetFile` succeeds and returns the full size `c.length`
together with a reader whose remaining bytes are exactly the suffix of
`c` from offset `n`. -/
theorem getFile_spec (rootPath path : String) (fs : Chillon.Fs)
    (c : List Nat) (n : Nat)
    (hf : Chillon.fsLookup fs (Chillon.realPathComps rootPath path) =
      some (Chillon.FsObj.file c))
    (hn : n ≤ c.length) :
    Chillon.getFile rootPath fs path n = .ok (c.length, c.drop n) := by
  unfold Chillon.getFile
  rw [hf]

/-- C3 witness: retrieving `/f` (content `[10, 11, 12]`) at offset 1
yields size 3 and remaining bytes `[11, 12]`. -/
theorem getFile_spec_witness :
    Chillon.getFile "upload" [(["upload", "f"],
        Chillon.FsObj.file [10, 11, 12])] "/f" 1 = .ok (3, [11, 12]) := by
  have h := getFile_spec "upload" "/f"
    [(["upload", "f"], Chillon.FsObj.file [10, 11, 12])] [10, 11, 12] 1
    (by simp [show Chillon.realPathComps "upload" "/f" = ["upload", "f"]
      from by decide, Chillon.fsLookup]) (by decide)
  simpa using h

namespace Chillon

/-- A successful lookup comes from an entry of the association list. -/
theorem fsLookup_mem (fs : Fs) (q : List String) (x : FsObj)
    (h : fsLookup fs q = some x) : (q, x) ∈ fs := by
  induction fs with
  | nil => simp [fsLookup] at h
  | cons kv rest ih =>
    obtain ⟨k, v⟩ := kv
    by_cases hk : k = q
    · subst hk
      simp [fsLookup] at h
      simp [h]
    · simp [fsLookup, hk] at h
      exact List.mem_cons_of_mem _ (ih h)

/-- A suffix of `rest` never reverses to the same path as `c :: rest`
(their lengths differ). -/
theorem tails_rev_ne (c : String) (rest s : List String)
    (h : s ∈ rest.tails) : s.reverse ≠ (c :: rest).reverse := by
  intro he
  have hlen := congrArg List.length he
  have hle := List.IsSuffix.length_le ((List.mem_tails s rest).mp h)
  simp [List.length_reverse] at hlen
  omega

/-- `os.MkdirAll` on a well-formed filesystem with no regular file on any
prefix of the target path: it succeeds; every nonempty prefix of the
target (every nonempty suffix of the reversed path) ends up a directory;
no prefix holds a regular file afterwards; every other path is
untouched. -/
theorem mkdirAllRev_spec (fs : Fs) (hwf : FsWf fs) :
    ∀ rev : List String,
      (∀ s ∈ rev.tails, notFileAt fs s.reverse = true) →
      ∃ fs', mkdirAllRev fs rev = .ok fs' ∧
        (∀ s ∈ rev.tails, s ≠ [] →
          fsLookup fs' s.reverse = some FsObj.dir) ∧
        (∀ s ∈ rev.tails, notFileAt fs' s.reverse = true) ∧
        (∀ q, (∀ s ∈ rev.tails, q ≠ s.reverse) →
          fsLookup fs' q = fsLookup fs q) := by
  intro rev
  induction rev with
  | nil =>
    intro hok
    have h0 := hok [] (by simp)
    refine ⟨fs, ?_, ?_, hok, fun q _ => rfl⟩
    · rcases hl : fsLookup fs ([] : List String) with _ | obj
      · simp [mkdirAllRev, hl]
      · rcases obj with cc | _
        · simp [notFileAt, hl] at h0
        · simp [mkdirAllRev, hl]
    · intro s hs hne
      simp at hs
      exact absurd hs hne
  | cons c rest ih =>
    intro hok
    have hok' : ∀ s ∈ rest.tails, notFileAt fs s.reverse = true := by
      intro s hs
      exact hok s (by simp [List.tails_cons, hs])
    have hself : (c :: rest) ∈ (c :: rest).tails :=
      (List.mem_tails _ _).mpr (List.suffix_refl _)
    rcases hl : fsLookup fs (c :: rest).reverse with _ | obj
    · -- the target is absent: make the parent, then create the target
      obtain ⟨fs'', h1, h2, h3, h4⟩ := ih hok'
      refine ⟨fsSet fs'' (c :: rest).reverse FsObj.dir, ?_, ?_, ?_, ?_⟩
      · unfold mkdirAllRev
        simp only [hl, h1]
      · intro s hs hne
        have hs' : s = c :: rest ∨ s ∈ rest.tails := by
          simpa [List.tails_cons] using hs
        rcases hs' with h | h
        · subst h
          exact fsLookup_fsSet_self _ _ _
        · rw [fsLookup_fsSet_ne _ _ _ _ (tails_rev_ne c rest s h)]
          exact h2 s h hne
      · intro s hs
        have hs' : s = c :: rest ∨ s ∈ rest.tails := by
          simpa [List.tails_cons] using hs
        rcases hs' with h | h
        · subst h
          simp [notFileAt, fsLookup_fsSet_self]
        · have heq : notFileAt (fsSet fs'' (c :: rest).reverse FsObj.dir)
              s.reverse = notFileAt fs'' s.reverse := by
            unfold notFileAt
            rw [fsLookup_fsSet_ne _ _ _ _ (tails_rev_ne c rest s h)]
          rw [heq]
          exact h3 s h
      · intro q hq
        rw [fsLookup_fsSet_ne _ _ _ _ (hq (c :: rest) hself)]
        exact h4 q (fun s hs => hq s (by simp [List.tails_cons, hs]))
    · rcases obj with cc | _
      · -- a regular file at the target: excluded by the hypothesis
        have hx := hok (c :: rest) hself
        unfold notFileAt at hx
        rw [hl] at hx
        simp at hx
      · -- the target already exists as a directory: nothing to do
        refine ⟨fs, by unfold mkdirAllRev; simp only [hl], ?_, hok,
          fun q _ => rfl⟩
        intro s hs hne
        have hs' : s = c :: rest ∨ s ∈ rest.tails := by
          simpa [List.tails_cons] using hs
        rcases hs' with h | h
        · subst h
          exact hl
        · have hmem := fsLookup_mem fs _ _ hl
          have hsuf : s <:+ c :: rest :=
            ((List.mem_tails s rest).mp h).trans (List.suffix_cons c rest)
          refine hwf _ hmem s.reverse ?_ (tails_rev_ne c rest s h) ?_
          · exact (List.mem_inits _ _).mpr ( List.reverse_prefix.mpr hsuf)
          · intro hr
            exact hne (by simpa using hr)

/-- A second `MkdirAll` on the resulting state is a no-op: if the target
is already a directory (or is the implicit root) and no file sits at it,
`mkdirAllRev` returns the state unchanged. -/
theorem mkdirAllRev_idem (fs' : Fs) (rev : List String)
    (hdir : rev ≠ [] → fsLookup fs' rev.reverse = some FsObj.dir)
    (hnf : notFileAt fs' rev.reverse = true) :
    mkdirAllRev fs' rev = .ok fs' := by
  rcases rev with _ | ⟨c, rest⟩
  · rcases hl : fsLookup fs' ([] : List String) with _ | obj
    · simp [mkdirAllRev, hl]
    · rcases obj with cc | _
      · simp [notFileAt, hl] at hnf
      · simp [mkdirAllRev, hl]
  · have hd := hdir (by simp)
    unfold mkdirAllRev
    simp only [hd]

end Chillon

/-- C10: `MakeDir` (which is `os.MkdirAll` on the resolved physical path)
is idempotent and parent-creating: on a well-formed filesystem where no
regular file occupies the target path or any of its prefixes, it
succeeds — also when the directory already exists — creating every
missing intermediate directory (afterwards every nonempty prefix of the
physical path is a directory), and running it a second time returns the
same state and succeeds again. -/
theorem makeDir_spec (rootPath path : String) (fs : Chillon.Fs)
    (hwf : Chillon.FsWf fs)
    (hok : ∀ q ∈ (Chillon.realPathComps rootPath path).inits,
      Chillon.notFileAt fs q = true) :
    ∃ fs', Chillon.makeDir rootPath fs path = .ok fs' ∧
      (∀ q ∈ (Chillon.realPathComps rootPath path).inits, q ≠ [] →
        Chillon.fsLookup fs' q = some Chillon.FsObj.dir) ∧
      Chillon.makeDir rootPath fs' path = .ok fs' := by
  have hok' : ∀ s ∈ (Chillon.realPathComps rootPath path).reverse.tails,
      Chillon.notFileAt fs s.reverse = true := by
    intro s hs
    apply hok
    rw [List.mem_inits]
    have hsuf := (List.mem_tails _ _).mp hs
    have hrr : s.reverse.reverse <:+
        (Chillon.realPathComps rootPath path).reverse := by
      rw [List.reverse_reverse]
      exact hsuf
    exact List.reverse_suffix.mp hrr
  obtain ⟨fs', h1, h2, h3, _⟩ :=
    Chillon.mkdirAllRev_spec fs hwf
      (Chillon.realPathComps rootPath path).reverse hok'
  have hselfmem : (Chillon.realPathComps rootPath path).reverse ∈
      (Chillon.realPathComps rootPath path).reverse.tails :=
    (List.mem_tails _ _).mpr (List.suffix_refl _)
  refine ⟨fs', h1, ?_, ?_⟩
  · intro q hq hne
    have hmem : q.reverse ∈
        (Chillon.realPathComps rootPath path).reverse.tails := by
      rw [List.mem_tails]
      exact List.reverse_suffix.mpr ((List.mem_inits _ _).mp hq)
    have := h2 q.reverse hmem (by simpa using hne)
    rwa [List.reverse_reverse] at this
  · apply Chillon.mkdirAllRev_idem
    · intro hne
      exact h2 _ hselfmem hne
    · exact h3 _ hselfmem

/-- C10 witness: on the empty filesystem, `MakeDir "/a/b"` with root
`"upload"` succeeds, leaves `upload`, `upload/a` and `upload/a/b` all
directories, and a second run returns the same state. -/
theorem makeDir_spec_witness :
    ∃ fs', Chillon.makeDir "upload" ([] : Chillon.Fs) "/a/b" = .ok fs' ∧
      (∀ q ∈ (Chillon.realPathComps "upload" "/a/b").inits, q ≠ [] →
        Chillon.fsLookup fs' q = some Chillon.FsObj.dir) ∧
      Chillon.makeDir "upload" fs' "/a/b" = .ok fs' :=
  makeDir_spec "upload" "/a/b" ([] : Chillon.Fs)
    (fun kv hkv => absurd hkv (List.not_mem_nil kv))
    (fun _ _ => rfl)

/-- C9: `Stat` succeeds exactly when the file exists and all three
permission-oracle calls succeed — in particular it fails whenever
`GetMode`, `GetOwner` or `GetGroup` fails, even though the file exists,
so a size-only query through `Stat` fails with the oracle. -/
theorem stat_requires_perm (rootPath path : String) (fs : Chillon.Fs)
    (perm : Chillon.Perm) :
    Chillon.exOk (Chillon.stat rootPath fs perm path) =
      ((Chillon.fsLookup fs (Chillon.realPathComps rootPath path)).isSome &&
        Chillon.exOk (perm.getMode path) &&
        Chillon.exOk (perm.getOwner path) &&
        Chillon.exOk (perm.getGroup path)) := by
  rcases hl : Chillon.fsLookup fs (Chillon.realPathComps rootPath path)
    with _ | obj
  · simp [Chillon.stat, Chillon.exOk, hl]
  · rcases hm : perm.getMode path with e | mode
    · simp [Chillon.stat, Chillon.exOk, hl, hm]
    · rcases ho : perm.getOwner path with e | owner
      · simp [Chillon.stat, Chillon.exOk, hl, hm, ho]
      · rcases hg : perm.getGroup path with e | group <;>
          simp [Chillon.stat, Chillon.exOk, hl, hm, ho, hg]

/-- C5: once `Shutdown` has cancelled the accept context, the next
failing `Accept` makes `Serve` return exactly `ErrServerClosed` whatever
the underlying error was (temporary or not); `Shutdown` leaves the
already-accepted connections untouched; and `Shutdown` on a server that
was never started (no cancel context, no listener) returns nil. -/
theorem shutdown_spec :
    (∀ (temp : Bool) (msg : String) (rest : List Chillon.AcceptEv),
      Chillon.serveRun (.acceptErr true temp msg :: rest) =
        some Chillon.ServeRes.closed) ∧
    (∀ s : Chillon.ServerState,
      (Chillon.shutdown s).1.conns = s.conns) ∧
    (∀ s : Chillon.ServerState,
      s.hasCancel = false → s.hasListener = false →
      (Chillon.shutdown s).2 = .ok ()) := by
  refine ⟨fun temp msg rest => by simp [Chillon.serveRun], ?_, ?_⟩
  · intro s
    unfold Chillon.shutdown
    by_cases h1 : s.hasCancel <;> by_cases h2 : s.hasListener <;>
      simp [h1, h2]
  · intro s h1 h2
    simp [Chillon.shutdown, h1, h2]

/-- C5 witness: a cancelled-context accept failure with a non-temporary
error yields `ErrServerClosed`; `Shutdown` on a concrete never-started
server state preserves its one live connection and returns nil. -/
theorem shutdown_spec_witness :
    Chillon.serveRun [Chillon.AcceptEv.acceptErr true false "boom"] =
      some Chillon.ServeRes.closed ∧
    (Chillon.shutdown ⟨false, false, false, false, none, [7]⟩).1.conns =
      [7] ∧
    (Chillon.shutdown ⟨false, false, false, false, none, [7]⟩).2 =
      .ok () :=
  ⟨shutdown_spec.1 false "boom" [],
   shutdown_spec.2.1 ⟨false, false, false, false, none, [7]⟩,
   shutdown_spec.2.2 ⟨false, false, false, false, none, [7]⟩ rfl rfl⟩

/-- C6: an `Accept` error while no shutdown has been requested: a
temporary `net.Error` is logged and the loop continues (the run equals
that of the remaining script); any other error makes `Serve` return
exactly that error. -/
theorem serve_accept_errors (msg : String) (rest : List Chillon.AcceptEv) :
    Chillon.serveRun (.acceptErr false true msg :: rest) =
        Chillon.serveRun rest ∧
      Chillon.serveRun (.acceptErr false false msg :: rest) =
        some (Chillon.ServeRes.fatal msg) := by
  constructor <;> simp [Chillon.serveRun]

/-- C7: when the certificate loads, `ListenAndServe` appends
`AUTH TLS`, `PBSZ`, `PROT` to the FEAT list exactly when TLS is enabled,
and the control listener is TLS-wrapped exactly when TLS is enabled and
`ExplicitFTPS` is false — with `ExplicitFTPS` true, or TLS disabled, it
is a plain TCP listener. -/
theorem listenAndServe_tls_feats (tls explicitFTPS certOk : Bool)
    (featCmds : String) (hc : certOk = true) :
    Chillon.listenAndServeSetup tls explicitFTPS certOk featCmds =
      .ok { kind := if tls && !explicitFTPS then .tlsWrapped else .plainTCP,
            curFeats := if tls then featCmds ++ Chillon.tlsFeatCmds
              else featCmds } ∧
    (∀ out, Chillon.listenAndServeSetup tls explicitFTPS certOk featCmds =
        .ok out →
      ((out.kind = Chillon.ListenerKind.tlsWrapped ↔
          (tls = true ∧ explicitFTPS = false)) ∧
        (out.curFeats = featCmds ++ Chillon.tlsFeatCmds ↔ tls = true ∨
          featCmds = featCmds ++ Chillon.tlsFeatCmds))) := by
  subst hc
  rcases tls <;> rcases explicitFTPS <;>
    refine ⟨by simp [Chillon.listenAndServeSetup], ?_⟩ <;>
    · intro out h
      simp [Chillon.listenAndServeSetup] at h
      subst h
      simp

/-- C7 witness: with TLS on and `ExplicitFTPS` off, the setup uses a
TLS-wrapped listener and appends the three TLS feature lines. -/
theorem listenAndServe_tls_feats_witness :
    Chillon.listenAndServeSetup true false true "base" =
      .ok { kind := if true && !false then .tlsWrapped else .plainTCP,
            curFeats := if true then "base" ++ Chillon.tlsFeatCmds
              else "base" } ∧
    (∀ out, Chillon.listenAndServeSetup true false true "base" =
        .ok out →
      ((out.kind = Chillon.ListenerKind.tlsWrapped ↔
          (true = true ∧ false = false)) ∧
        (out.curFeats = "base" ++ Chillon.tlsFeatCmds ↔ true = true ∨
          "base" = "base" ++ Chillon.tlsFeatCmds))) :=
  listenAndServe_tls_feats true false true "base" rfl

/-- C8: `serverOptsWithDefaults` applies defaults exactly to zero-valued
fields — hostname `"::"` when empty, port 3000 when 0, name
`"Go FTP Server"` when empty, the default welcome message when empty,
the standard logger when nil — carries every other field over unchanged,
and treats a nil options pointer as the zero options value. -/
theorem serverOptsWithDefaults_spec (o : Chillon.ServerOpts) :
    (Chillon.serverOptsWithDefaults (some o)).hostname =
        (if o.hostname = "" then "::" else o.hostname) ∧
    (Chillon.serverOptsWithDefaults (some o)).port =
        (if o.port = 0 then 3000 else o.port) ∧
    (Chillon.serverOptsWithDefaults (some o)).name =
        (if o.name = "" then "Go FTP Server" else o.name) ∧
    (Chillon.serverOptsWithDefaults (some o)).welcomeMessage =
        (if o.welcomeMessage = "" then Chillon.defaultWelcomeMessage
         else o.welcomeMessage) ∧
    (Chillon.serverOptsWithDefaults (some o)).logger =
        some (match o.logger with
          | none => Chillon.LoggerI.stdLogger
          | some l => l) ∧
    (Chillon.serverOptsWithDefaults (some o)).factory = o.factory ∧
    (Chillon.serverOptsWithDefaults (some o)).auth = o.auth ∧
    (Chillon.serverOptsWithDefaults (some o)).publicIp = o.publicIp ∧
    (Chillon.serverOptsWithDefaults (some o)).passivePorts =
      o.passivePorts ∧
    (Chillon.serverOptsWithDefaults (some o)).tls = o.tls ∧
    (Chillon.serverOptsWithDefaults (some o)).certFile = o.certFile ∧
    (Chillon.serverOptsWithDefaults (some o)).keyFile = o.keyFile ∧
    (Chillon.serverOptsWithDefaults (some o)).explicitFTPS =
      o.explicitFTPS ∧
    Chillon.serverOptsWithDefaults none =
      Chillon.serverOptsWithDefaults (some Chillon.zeroServerOpts) := by
  exact ⟨rfl, rfl, rfl, rfl, rfl, rfl, rfl, rfl, rfl, rfl, rfl, rfl, rfl,
    rfl⟩

namespace Chillon

/-- `filepath.Rel` of a depth-one node is its single component. -/
theorem relStr_single (n : String) : relStr [n] = n := rfl

/-- `info.Name()` of a depth-one node is its single component. -/
theorem entryName_single (n b : String) : entryName [n] b = n := rfl

/-- With a total permission oracle and a callback that never errors, the
children loop at the walk root invokes the callback exactly once per
immediate child, in order, and returns nil: a file child continues the
loop normally and a directory child is cut off by `SkipDir` before any
grandchild is visited (the `SkipDir` of a directory child is swallowed
by the loop). -/
theorem walkC_root_children (modeF : String → Nat)
    (ownerF groupF : String → String) (cb : FileInfoEx → Option String)
    (baseName : String) (hcb : ∀ fi, cb fi = none) :
    ∀ children : List (String × Entry),
      walkC ⟨fun s => .ok (modeF s), fun s => .ok (ownerF s),
          fun s => .ok (groupF s)⟩ cb baseName [] children =
        (children.map (fun c =>
          ⟨c.1, modeF c.1, entryIsDir c.2, ownerF c.1, groupF c.1,
           entrySize c.2⟩), .ok) := by
  intro children
  induction children with
  | nil => simp [walkC]
  | cons c rest ih =>
    obtain ⟨n, ch⟩ := c
    rcases ch with sz | gch
    · simp [walkC, walkE, listWalkFn, relStr_single, entryName_single,
        entryIsDir, entrySize, hcb, ih]
    · simp [walkC, walkE, listWalkFn, relStr_single, entryName_single,
        entryIsDir, entrySize, hcb, ih]

end Chillon

/-- C1 (amended): when the resolved physical directory's base name is not
`"."`, `ListDir` with a never-failing permission oracle and a
never-failing callback invokes the callback exactly once for each
immediate child, in directory order — with that child's name, oracle
mode/owner/group, directory bit and size — never for the directory
itself nor for any entry deeper than one level (descent into child
directories is cancelled by the `SkipDir` return), and returns nil.
(For a path whose physical resolution is `"."` the callback fires for
the directory itself instead of its children — see the
counterexample.) -/
theorem listDir_immediate_children (modeF : String → Nat)
    (ownerF groupF : String → String)
    (cb : Chillon.FileInfoEx → Option String) (baseName : String)
    (children : List (String × Chillon.Entry))
    (hb : baseName ≠ ".") (hcb : ∀ fi, cb fi = none) :
    Chillon.listDir ⟨fun s => .ok (modeF s), fun s => .ok (ownerF s),
        fun s => .ok (groupF s)⟩ cb baseName (.dir children) =
      (children.map (fun c =>
        ⟨c.1, modeF c.1, Chillon.entryIsDir c.2, ownerF c.1, groupF c.1,
         Chillon.entrySize c.2⟩), none) := by
  have hne : ¬ ("." = baseName) := fun h => hb h.symm
  simp [Chillon.listDir, Chillon.walkE, Chillon.listWalkFn,
    Chillon.relStr, Chillon.entryName, hne,
    Chillon.walkC_root_children modeF ownerF groupF cb baseName hcb
      children]

/-- C1 witness: with base name `"upload"`, a file child and a directory
child (itself with a grandchild), the callback fires exactly once per
immediate child, in order, and never for the root or the grandchild. -/
theorem listDir_immediate_children_witness :
    Chillon.listDir ⟨fun _ => .ok 420, fun _ => .ok "root",
        fun _ => .ok "root"⟩ (fun _ => none) "upload"
        (.dir [("a", .file 3), ("d", .dir [("x", .file 1)])]) =
      ([("a", Chillon.Entry.file 3),
        ("d", Chillon.Entry.dir [("x", Chillon.Entry.file 1)])].map
          (fun c => ⟨c.1, 420, Chillon.entryIsDir c.2, "root", "root",
            Chillon.entrySize c.2⟩), none) :=
  listDir_immediate_children (fun _ => 420) (fun _ => "root")
    (fun _ => "root") (fun _ => none) "upload"
    [("a", Chillon.Entry.file 3),
     ("d", Chillon.Entry.dir [("x", Chillon.Entry.file 1)])]
    (by decide) (fun _ => rfl)

/-- C1 (counterexample): with `RootPath = "upload"` the virtual directory
path `"/.."` resolves to the physical path `"."` (the empty component
list, printed `"."`, whose base name is `"."`).  There
`filepath.Rel(basepath, basepath) = "."` equals the walk root's
`info.Name() = "."`, so `ListDir` invokes the callback once for the
directory itself, and the ensuing `SkipDir` cancels the whole walk: the
immediate child `"a"` is never reported, refuting "exactly once for each
immediate child, and never for p itself". -/
theorem listDir_root_dot_counterexample :
    Chillon.realPathComps "upload" "/.." = [] ∧
    Chillon.goPathString false (Chillon.realPathComps "upload" "/..") =
      "." ∧
    Chillon.listDir ⟨fun _ => .ok 420, fun _ => .ok "root",
        fun _ => .ok "root"⟩ (fun _ => none) "."
        (.dir [("a", .file 3)]) =
      ([⟨".", 420, true, "root", "root", 0⟩], none) ∧
    (([⟨".", 420, true, "root", "root", 0⟩] :
        List Chillon.FileInfoEx).map (fun fi => fi.name) ≠ ["a"]) := by
  refine ⟨by decide, by decide, ?_, by decide⟩
  simp [Chillon.listDir, Chillon.walkE, Chillon.walkC, Chillon.listWalkFn,
    Chillon.relStr, Chillon.entryName, Chillon.joinSlash,
    Chillon.entryIsDir]
